import Mathlib

set_option maxRecDepth 8000

/-! Shallow embedding of the FTPDataGenerator pipeline (src/main.go) and
proofs about its connection-establishment retry loop, metadata (manifest)
generation, snapshot upload batch, stage sequencing, and the CSV
write/read round trip. -/

/-- Outcome of one iteration of the retry loop in establishFTPConnection
(src/main.go lines 294-307): the transport dial can fail, the login can fail
after a successful dial, or both can succeed. -/
inductive AttemptOutcome
  | dialFail
  | authFail
  | success
deriving DecidableEq

/-- Observable result of establishFTPConnection: whether config.FTPConn was
set, how many connect attempts were performed, how many backoff
time.Sleep calls were performed, and the returned error (none on success). -/
structure EstablishResult where
  connected : Bool
  attemptsMade : Nat
  sleeps : Nat
  errorMsg : Option String
deriving DecidableEq

/-- The error built at src/main.go line 313 when the loop exhausts all
attempts. -/
def establishFailMsg (n : Nat) : String :=
  "failed to establish FTP connection after " ++ toString n ++ " attempts"

/-- The retry loop of establishFTPConnection (src/main.go lines 294-311).
fuel counts the remaining iterations of the for loop bounded by MaxRetries,
i is the loop index, attempts and sleeps count the connect attempts and the
backoff time.Sleep calls performed so far.  A failed dial or a failed login
logs, sleeps the retry interval and continues; combined success stores the
connection (connected = true) and returns nil immediately. -/
def establishAux (outcome : Nat → AttemptOutcome) (total : Nat) :
    Nat → Nat → Nat → Nat → EstablishResult
  | 0, _, attempts, sleeps =>
    { connected := false, attemptsMade := attempts, sleeps := sleeps,
      errorMsg := some (establishFailMsg total) }
  | fuel + 1, i, attempts, sleeps =>
    match outcome i with
    | AttemptOutcome.success =>
      { connected := true, attemptsMade := attempts + 1, sleeps := sleeps,
        errorMsg := none }
    | _ => establishAux outcome total fuel (i + 1) (attempts + 1) (sleeps + 1)

/-- establishFTPConnection (src/main.go lines 291-314), with the network
abstracted as a function from the loop index to the attempt outcome. -/
def establishFTPConnection (outcome : Nat → AttemptOutcome) (maxRetries : Nat) :
    EstablishResult :=
  establishAux outcome maxRetries maxRetries 0 0 0

/-- A file in the snapshot output directory: its base name and the result of
os.Stat, abstracted to the modification-time string ModTime().String()
when the stat succeeds (none models a stat error). -/
structure FsFile where
  name : String
  statResult : Option String
deriving DecidableEq

def startsWithChars : List Char → List Char → Bool
  | [], _ => true
  | _ :: _, [] => false
  | p :: ps, s :: ss => p == s && startsWithChars ps ss

def endsWithChars (p s : List Char) : Bool :=
  startsWithChars p.reverse s.reverse

/-- The fixed glob pattern snapshot star .jpg (src/main.go lines 217 and 318)
applied to base names: the star matches any run of non-separator characters,
so a base name matches exactly when it starts with snapshot and ends with
.jpg. -/
def snapshotPattern (name : String) : Bool :=
  startsWithChars "snapshot".data name.data && endsWithChars ".jpg".data name.data

/-- Byte-lexicographic comparison of names, as used by the sort that
filepath.Glob applies to its matches. -/
def charListLe : List Char → List Char → Bool
  | [], _ => true
  | _ :: _, [] => false
  | a :: as, b :: bs =>
    if a.toNat < b.toNat then true
    else if b.toNat < a.toNat then false
    else charListLe as bs

def nameLe (f g : FsFile) : Bool := charListLe f.name.data g.name.data

def insertByName (f : FsFile) : List FsFile → List FsFile
  | [] => [f]
  | g :: gs => if nameLe f g then f :: g :: gs else g :: insertByName f gs

def sortByName : List FsFile → List FsFile
  | [] => []
  | f :: fs => insertByName f (sortByName fs)

/-- filepath.Glob on the snapshot directory: the directory entries whose
names match the pattern, in sorted name order. -/
def glob (dir : List FsFile) : List FsFile :=
  sortByName (dir.filter (fun f => snapshotPattern f.name))

/-- The row generateMetadata appends for one globbed file: its base name and
its modification-time string, or none when the stat fails (src/main.go lines
231-238). -/
def rowOf (f : FsFile) : Option (List String) :=
  f.statResult.map (fun t => [f.name, t])

def metadataHeader : List String := ["Filename", "Creation Time"]

/-- The records slice built by generateMetadata (src/main.go lines 228-238):
the fixed header row, then one row per globbed file whose os.Stat succeeded,
in glob order; a file whose stat fails is skipped after a logged message. -/
def metadataRecords (files : List FsFile) : List (List String) :=
  metadataHeader :: files.filterMap rowOf

inductive MetaLog
  | started
  | noSnapshotsWarning
  | statFailed (name : String)
  | completed
deriving DecidableEq

/-- The filesystem state seen by generateMetadata: the snapshot directory and
the metadata CSV file content (none when the file does not exist). -/
structure FsState where
  captureDir : List FsFile
  manifest : Option (List (List String))
deriving DecidableEq

structure MetaRun where
  finalState : FsState
  written : Option (List (List String))
  logs : List MetaLog
deriving DecidableEq

/-- generateMetadata (src/main.go lines 213-263) as a state transformer: glob
the snapshot directory; with zero matches log a warning and return without
creating or writing the metadata file; otherwise build the records (skipping
files whose stat fails, with a logged message each) and write them all to the
metadata file. -/
def generateMetadata (s : FsState) : MetaRun :=
  let files := glob s.captureDir
  if files.isEmpty then
    { finalState := s, written := none,
      logs := [MetaLog.started, MetaLog.noSnapshotsWarning] }
  else
    let recs := metadataRecords files
    { finalState := { s with manifest := some recs }, written := some recs,
      logs := [MetaLog.started] ++
        files.filterMap
          (fun f => if f.statResult.isNone then some (MetaLog.statFailed f.name) else none) ++
        [MetaLog.completed] }

/-- A directory whose sole file does not match the snapshot glob pattern. -/
def emptyDirState : FsState :=
  { captureDir := [FsFile.mk "other.txt" (some "t0")], manifest := none }

/-- A directory with two matching files, one of which fails os.Stat. -/
def statFailState : FsState :=
  { captureDir := [FsFile.mk "snapshot002.jpg" (some "t2"),
                   FsFile.mk "snapshot001.jpg" none],
    manifest := none }

/-- A directory with two matching, readable files, listed out of name order. -/
def allOkState : FsState :=
  { captureDir := [FsFile.mk "snapshot002.jpg" (some "t2"),
                   FsFile.mk "snapshot001.jpg" (some "t1")],
    manifest := none }

/-- The modification-time view used in the concrete witnesses. -/
def witnessMt (f : FsFile) : String := f.statResult.getD ""

/-- The three fallible operations inside uploadFile (src/main.go lines
265-288): os.Open on the local file, conn.Stor to the remote path, and the
deferred file.Close; each yields an error or nil. -/
structure FileOps where
  openErr : Option String
  storErr : Option String
  closeErr : Option String
deriving DecidableEq

/-- uploadFile (src/main.go lines 265-288): open the local file (returning
the open error directly, with no close attempted); otherwise run Stor and
let the deferred closure run Close.  A Stor error is returned and a
simultaneous Close error is only logged; with Stor successful, a Close error
becomes the returned error.  Result: the returned error and the log lines of
the deferred closure. -/
def uploadFile (ops : FileOps) : Option String × List String :=
  match ops.openErr with
  | some e => (some e, [])
  | none =>
    match ops.storErr, ops.closeErr with
    | some se, some ce => (some se, ["Failed to close the file: " ++ ce])
    | some se, none => (some se, [])
    | none, some ce => (some ce, [])
    | none, none => (none, [])

/-- One log line of the uploadSnapshots loop (src/main.go lines 316-336):
the opening banner, a per-file success or failure line, the pacing sleep
after each push, and the completion line. -/
inductive UpLog
  | started
  | uploaded (name : String)
  | uploadFailed (name : String) (e : String)
  | paced
  | completed
deriving DecidableEq

/-- The for loop of uploadSnapshots: every globbed file is attempted with
uploadFile; a failure is logged and the loop continues; success is logged;
after each push (success or failure) the loop sleeps the pacing interval;
the completion line is logged only after the walk ends. -/
def uploadLoop (ops : String → FileOps) : List FsFile → List UpLog
  | [] => [UpLog.completed]
  | f :: fs =>
    (match (uploadFile (ops f.name)).1 with
     | some e => UpLog.uploadFailed f.name e
     | none => UpLog.uploaded f.name) :: UpLog.paced :: uploadLoop ops fs

/-- uploadSnapshots (src/main.go lines 316-336): glob the snapshot directory
and walk every match with uploadFile, with per-file behavior abstracted by
ops. -/
def uploadSnapshots (dir : List FsFile) (ops : String → FileOps) : List UpLog :=
  UpLog.started :: uploadLoop ops (glob dir)

/-- The file name a log line records an upload attempt for, if any. -/
def attemptedName : UpLog → Option String
  | UpLog.uploaded n => some n
  | UpLog.uploadFailed n _ => some n
  | _ => none

/-- Per-file operations for the concrete upload witness: every open fails. -/
def witnessOps : String → FileOps :=
  fun _ => { openErr := some "open failed", storErr := none, closeErr := none }

/-- Concrete file operations where only the deferred Close fails. -/
def closeFailOps : FileOps :=
  { openErr := none, storErr := none, closeErr := some "close failed" }

/-- Program counter of the first goroutine (src/main.go lines 78-81): run
generateTestVideo (the Synthesize stage), then signal testVideoDone. -/
inductive SynthPC
  | ready
  | videoGenerated
  | signalSent
deriving DecidableEq

/-- Program counter of the second goroutine (src/main.go lines 83-88): block
on testVideoDone, run generateSnapshots (the Extract stage), then signal
snapshotsDone. -/
inductive ExtractPC
  | blocked
  | signalReceived
  | snapshotsGenerated
  | signalSent
deriving DecidableEq

/-- Program counter of the third goroutine (src/main.go lines 90-94): block
on snapshotsDone, then run generateMetadata (the BuildManifest stage). -/
inductive ManifestPC
  | blocked
  | signalReceived
  | metadataGenerated
deriving DecidableEq

/-- Joint state of the three generation goroutines of main (src/main.go
lines 72-94), with the one-shot completion channels testVideoDone and
snapshotsDone abstracted to whether their signal has been sent. -/
structure CoordState where
  synth : SynthPC
  extract : ExtractPC
  manifest : ManifestPC
  videoDone : Bool
  snapsDone : Bool
deriving DecidableEq

def initCoord : CoordState :=
  { synth := SynthPC.ready, extract := ExtractPC.blocked,
    manifest := ManifestPC.blocked, videoDone := false, snapsDone := false }

/-- Interleaving semantics of the three goroutines: each step runs one
goroutine one program point forward; a receive is enabled only once the
matching one-shot signal has been sent. -/
inductive CoordStep : CoordState → CoordState → Prop
  | runSynthesize (s : CoordState) (h : s.synth = SynthPC.ready) :
      CoordStep s { s with synth := SynthPC.videoGenerated }
  | sendVideoDone (s : CoordState) (h : s.synth = SynthPC.videoGenerated) :
      CoordStep s { s with synth := SynthPC.signalSent, videoDone := true }
  | recvVideoDone (s : CoordState) (h1 : s.extract = ExtractPC.blocked)
      (h2 : s.videoDone = true) :
      CoordStep s { s with extract := ExtractPC.signalReceived }
  | runExtract (s : CoordState) (h : s.extract = ExtractPC.signalReceived) :
      CoordStep s { s with extract := ExtractPC.snapshotsGenerated }
  | sendSnapsDone (s : CoordState) (h : s.extract = ExtractPC.snapshotsGenerated) :
      CoordStep s { s with extract := ExtractPC.signalSent, snapsDone := true }
  | recvSnapsDone (s : CoordState) (h1 : s.manifest = ManifestPC.blocked)
      (h2 : s.snapsDone = true) :
      CoordStep s { s with manifest := ManifestPC.signalReceived }
  | runManifest (s : CoordState) (h : s.manifest = ManifestPC.signalReceived) :
      CoordStep s { s with manifest := ManifestPC.metadataGenerated }

/-- The states the coordinator can reach from process start by interleaved
goroutine steps. -/
inductive CoordReachable : CoordState → Prop
  | init : CoordReachable initCoord
  | step {s t : CoordState} : CoordReachable s → CoordStep s t → CoordReachable t

/-- Signal-gating invariant of the coordinator: a sent signal means its
sender finished its stage, and a goroutine past its receive means the signal
it waited on was sent. -/
def coordInv (s : CoordState) : Prop :=
  (s.videoDone = true → s.synth = SynthPC.signalSent) ∧
  (s.extract ≠ ExtractPC.blocked → s.videoDone = true) ∧
  (s.snapsDone = true → s.extract = ExtractPC.signalSent) ∧
  (s.manifest ≠ ManifestPC.blocked → s.snapsDone = true)

/-- A reachable coordinator state with the Extract stage just unblocked,
used as the concrete witness. -/
def coordWitnessState : CoordState :=
  { synth := SynthPC.signalSent, extract := ExtractPC.signalReceived,
    manifest := ManifestPC.blocked, videoDone := true, snapsDone := false }

/-- The characters that force csv.Writer to quote a field: the comma
separator, a double quote, CR, LF. -/
def csvSpecial (c : Char) : Bool :=
  c == ',' || c == '"' || c == '\r' || c == '\n'

/-- unicode.IsSpace restricted to the Latin-1 code points; the higher space
code points only affect whether a field gets quoted, never whether the
written field parses back, since quoting is parse-neutral. -/
def goIsSpace (c : Char) : Bool :=
  c == ' ' || c == '\t' || c == '\n' || c == Char.ofNat 11 || c == Char.ofNat 12 ||
  c == '\r' || c == Char.ofNat 133 || c == Char.ofNat 160

/-- csv.Writer.fieldNeedsQuotes with the default comma separator: an empty
field is not quoted; a field equal to backslash-dot, containing a special
character, or starting with a space is quoted. -/
def fieldNeedsQuotes (f : List Char) : Bool :=
  match f with
  | [] => false
  | c :: _ => f == ['\\', '.'] || f.any csvSpecial || goIsSpace c

/-- The body csv.Writer emits inside quotes: a double quote is doubled; CR
and LF are written as-is since UseCRLF is false. -/
def escapeField : List Char → List Char
  | [] => []
  | c :: rest =>
    if c == '"' then '"' :: '"' :: escapeField rest else c :: escapeField rest

def writeField (f : List Char) : List Char :=
  if fieldNeedsQuotes f then '"' :: (escapeField f ++ ['"']) else f

/-- One two-field record line as csv.Writer emits it: the fields joined by
the comma separator, terminated by a line feed (UseCRLF false). -/
def writeRecordPair (p : List Char × List Char) : List Char :=
  writeField p.1 ++ ',' :: (writeField p.2 ++ ['\n'])

def writeAllPairs : List (List Char × List Char) → List Char
  | [] => []
  | p :: rest => writeRecordPair p ++ writeAllPairs rest

def manifestHeaderPair : List Char × List Char :=
  ("Filename".data, "Creation Time".data)

/-- The byte stream csv.NewWriter(file).WriteAll (src/main.go lines 253-256)
writes for the records generateMetadata builds from the given
(filename, timestamp) pairs: the fixed header row, then one row per pair. -/
def writeManifestCSV (prs : List (List Char × List Char)) : List Char :=
  writeAllPairs (manifestHeaderPair :: prs)

/-- csv.Reader reads physical lines and rewrites a terminating CR LF into a
lone LF; since every LF ends a physical line, every CR LF of the stream is
normalized, scanning left to right. -/
def normalizeCRLF : List Char → List Char
  | [] => []
  | [c] => [c]
  | c :: d :: rest =>
    if c = '\r' ∧ d = '\n' then '\n' :: normalizeCRLF rest
    else c :: normalizeCRLF (d :: rest)

/-- Whether the stream contains a CR immediately followed by an LF. -/
def hasCRLF : List Char → Bool
  | [] => false
  | [_] => false
  | c :: d :: rest => (c == '\r' && d == '\n') || hasCRLF (d :: rest)

inductive PMode
  | lineStart
  | fieldStart
  | bareMode
  | quotedMode
  | afterQuote
deriving DecidableEq

/-- csv.Reader field-and-record scanner over the normalized stream, with the
default options (comma separator, no lazy quotes, no comment character, no
leading-space trimming): blank lines are skipped; a bare quote inside an
unquoted field, or a stray character after a closing quote, is an error; a
doubled quote inside a quoted field encodes one quote; the last record may
end at end of input without a newline.  fa is the field collected so far,
ra the fields of the current record, recs the completed records. -/
def parseLoop : List Char → PMode → List Char → List (List Char) →
    List (List (List Char)) → Except String (List (List (List Char)))
  | [], PMode.lineStart, _, _, recs => Except.ok recs
  | [], PMode.fieldStart, fa, ra, recs => Except.ok (recs ++ [ra ++ [fa]])
  | [], PMode.bareMode, fa, ra, recs => Except.ok (recs ++ [ra ++ [fa]])
  | [], PMode.quotedMode, _, _, _ =>
    Except.error "extraneous or missing quote in quoted field"
  | [], PMode.afterQuote, fa, ra, recs => Except.ok (recs ++ [ra ++ [fa]])
  | c :: rest, PMode.lineStart, fa, ra, recs =>
    if c = '\n' then parseLoop rest PMode.lineStart fa ra recs
    else if c = ',' then parseLoop rest PMode.fieldStart [] (ra ++ [[]]) recs
    else if c = '"' then parseLoop rest PMode.quotedMode [] ra recs
    else parseLoop rest PMode.bareMode [c] ra recs
  | c :: rest, PMode.fieldStart, fa, ra, recs =>
    if c = '\n' then parseLoop rest PMode.lineStart [] [] (recs ++ [ra ++ [[]]])
    else if c = ',' then parseLoop rest PMode.fieldStart [] (ra ++ [[]]) recs
    else if c = '"' then parseLoop rest PMode.quotedMode [] ra recs
    else parseLoop rest PMode.bareMode [c] ra recs
  | c :: rest, PMode.bareMode, fa, ra, recs =>
    if c = '\n' then parseLoop rest PMode.lineStart [] [] (recs ++ [ra ++ [fa]])
    else if c = ',' then parseLoop rest PMode.fieldStart [] (ra ++ [fa]) recs
    else if c = '"' then Except.error "bare quote in non-quoted field"
    else parseLoop rest PMode.bareMode (fa ++ [c]) ra recs
  | c :: rest, PMode.quotedMode, fa, ra, recs =>
    if c = '"' then parseLoop rest PMode.afterQuote fa ra recs
    else parseLoop rest PMode.quotedMode (fa ++ [c]) ra recs
  | c :: rest, PMode.afterQuote, fa, ra, recs =>
    if c = '"' then parseLoop rest PMode.quotedMode (fa ++ ['"']) ra recs
    else if c = ',' then parseLoop rest PMode.fieldStart [] (ra ++ [fa]) recs
    else if c = '\n' then parseLoop rest PMode.lineStart [] [] (recs ++ [ra ++ [fa]])
    else Except.error "extraneous or missing quote in quoted field"

def parseCSVChars (s : List Char) : Except String (List (List (List Char))) :=
  parseLoop s PMode.lineStart [] [] []

/-- csv.Reader.ReadAll: parse the normalized stream, then the default
FieldsPerRecord check that every record has as many fields as the first. -/
def readAllCSV (s : List Char) : Except String (List (List (List Char))) :=
  match parseCSVChars (normalizeCRLF s) with
  | Except.error e => Except.error e
  | Except.ok recs =>
    match recs with
    | [] => Except.ok []
    | r0 :: _ =>
      if recs.all (fun r => r.length == r0.length) then Except.ok recs
      else Except.error "wrong number of fields"

/-- A (filename, timestamp) pair whose filename contains a CR LF sequence. -/
def crlfPair : List Char × List Char := (['a', '\r', '\n', 'b'], ['t'])

/-- A concrete well-behaved manifest pair list for the round-trip witness. -/
def witnessPairs : List (List Char × List Char) :=
  [("snapshot001.jpg".data, "2024-01-02 03:04:05 +0000 UTC".data)]

theorem establishAux_allFail (outcome : Nat → AttemptOutcome)
    (h : ∀ j, outcome j ≠ AttemptOutcome.success) (total fuel : Nat) :
    ∀ i attempts sleeps, establishAux outcome total fuel i attempts sleeps =
      { connected := false, attemptsMade := attempts + fuel, sleeps := sleeps + fuel,
        errorMsg := some (establishFailMsg total) } := by
  induction fuel with
  | zero => intro i a s; simp [establishAux]
  | succ n ih =>
    intro i a s
    cases hc : outcome i with
    | success => exact absurd hc (h i)
    | dialFail =>
      simp only [establishAux, hc]
      rw [ih (i + 1) (a + 1) (s + 1)]
      simp [EstablishResult.mk.injEq]
      omega
    | authFail =>
      simp only [establishAux, hc]
      rw [ih (i + 1) (a + 1) (s + 1)]
      simp [EstablishResult.mk.injEq]
      omega

/-- Claim C1: for every configured MaxRetries N with N at least 1, if every
transport-level connect attempt fails, establishFTPConnection performs
exactly N connect attempts and returns the descriptive error that names N
as the number of attempts made (and no connection is stored). -/
theorem establish_allFail_attempts_and_error (outcome : Nat → AttemptOutcome)
    (N : Nat) (hN : 1 ≤ N)
    (hfail : ∀ j, outcome j = AttemptOutcome.dialFail) :
    (establishFTPConnection outcome N).attemptsMade = N ∧
    (establishFTPConnection outcome N).connected = false ∧
    (establishFTPConnection outcome N).errorMsg = some (establishFailMsg N) := by
  have h : ∀ j, outcome j ≠ AttemptOutcome.success := by
    intro j hj
    rw [hfail j] at hj
    exact absurd hj (by simp)
  unfold establishFTPConnection
  rw [establishAux_allFail outcome h N N 0 0 0]
  simp

theorem establish_allFail_witness :
    (establishFTPConnection (fun _ => AttemptOutcome.dialFail) 3).attemptsMade = 3 ∧
    (establishFTPConnection (fun _ => AttemptOutcome.dialFail) 3).connected = false ∧
    (establishFTPConnection (fun _ => AttemptOutcome.dialFail) 3).errorMsg =
      some (establishFailMsg 3) :=
  establish_allFail_attempts_and_error (fun _ => AttemptOutcome.dialFail) 3
    (by decide) (fun _ => rfl)

theorem establishAux_firstSuccess (outcome : Nat → AttemptOutcome) (total : Nat) :
    ∀ d fuel i attempts sleeps, d < fuel →
      outcome (i + d) = AttemptOutcome.success →
      (∀ j, j < d → outcome (i + j) ≠ AttemptOutcome.success) →
      establishAux outcome total fuel i attempts sleeps =
        { connected := true, attemptsMade := attempts + d + 1, sleeps := sleeps + d,
          errorMsg := none } := by
  intro d
  induction d with
  | zero =>
    intro fuel i a s hfu hsucc _
    cases fuel with
    | zero => omega
    | succ m =>
      have hi : outcome i = AttemptOutcome.success := by simpa using hsucc
      simp [establishAux, hi]
  | succ n ih =>
    intro fuel i a s hfu hsucc hprev
    cases fuel with
    | zero => omega
    | succ m =>
      have h0 : outcome i ≠ AttemptOutcome.success := by
        have := hprev 0 (by omega)
        simpa using this
      have hsucc' : outcome (i + 1 + n) = AttemptOutcome.success := by
        rw [show i + 1 + n = i + (n + 1) by omega]
        exact hsucc
      have hprev' : ∀ j, j < n → outcome (i + 1 + j) ≠ AttemptOutcome.success := by
        intro j hj
        rw [show i + 1 + j = i + (j + 1) by omega]
        exact hprev (j + 1) (by omega)
      have hrec := ih m (i + 1) (a + 1) (s + 1) (by omega) hsucc' hprev'
      cases hc : outcome i with
      | success => exact absurd hc h0
      | dialFail =>
        simp only [establishAux, hc]
        rw [hrec]
        simp [EstablishResult.mk.injEq]
        omega
      | authFail =>
        simp only [establishAux, hc]
        rw [hrec]
        simp [EstablishResult.mk.injEq]
        omega

/-- Claim C2: for every configured MaxRetries N and every K with
1 <= K <= N, if the connect/login pair first succeeds on attempt K,
establishFTPConnection returns success after exactly K attempts, stores
the live connection (connected = true), performs no further attempts, and
performs no backoff sleep after the successful attempt (exactly K - 1
sleeps, one per failed attempt). -/
theorem establish_successAtK (outcome : Nat → AttemptOutcome) (N K : Nat)
    (hK1 : 1 ≤ K) (hKN : K ≤ N)
    (hsucc : outcome (K - 1) = AttemptOutcome.success)
    (hprev : ∀ j, j < K - 1 → outcome j ≠ AttemptOutcome.success) :
    establishFTPConnection outcome N =
      { connected := true, attemptsMade := K, sleeps := K - 1, errorMsg := none } := by
  unfold establishFTPConnection
  have h := establishAux_firstSuccess outcome N (K - 1) N 0 0 0 (by omega)
    (by simpa using hsucc) (by intro j hj; simpa using hprev j hj)
  rw [h]
  simp [EstablishResult.mk.injEq]
  omega

theorem establish_successAtK_witness :
    establishFTPConnection
      (fun j => if j = 0 then AttemptOutcome.authFail else AttemptOutcome.success) 3 =
      { connected := true, attemptsMade := 2, sleeps := 1, errorMsg := none } :=
  establish_successAtK
    (fun j => if j = 0 then AttemptOutcome.authFail else AttemptOutcome.success)
    3 2 (by decide) (by decide) (by decide)
    (by
      intro j hj
      have hj0 : j = 0 := by omega
      subst hj0
      simp)

/-- Claim C3 counterexample: with MaxRetries = 1 and a failing dial, the
single failed attempt is followed by one backoff sleep (the time.Sleep at
src/main.go line 298 runs inside the loop body even when no retry remains),
so the claim that no backoff sleep happens after the single try is false. -/
theorem establish_maxOne_counterexample :
    (establishFTPConnection (fun _ => AttemptOutcome.dialFail) 1).attemptsMade = 1 ∧
    (establishFTPConnection (fun _ => AttemptOutcome.dialFail) 1).sleeps = 1 ∧
    (establishFTPConnection (fun _ => AttemptOutcome.dialFail) 1).sleeps ≠ 0 := by
  refine ⟨rfl, rfl, ?_⟩
  decide

/-- Claim C3 amended: with MaxRetries = 1 exactly one connect/authenticate
try is performed; no backoff sleep follows a successful try, while a failed
try is followed by exactly one backoff sleep before the error is returned. -/
theorem establish_maxOne_amended (outcome : Nat → AttemptOutcome) :
    (establishFTPConnection outcome 1).attemptsMade = 1 ∧
    (outcome 0 = AttemptOutcome.success →
      (establishFTPConnection outcome 1).sleeps = 0 ∧
      (establishFTPConnection outcome 1).connected = true) ∧
    (outcome 0 ≠ AttemptOutcome.success →
      (establishFTPConnection outcome 1).sleeps = 1 ∧
      (establishFTPConnection outcome 1).connected = false) := by
  cases hc : outcome 0 with
  | success =>
    refine ⟨?_, ?_, ?_⟩ <;> simp [establishFTPConnection, establishAux, hc]
  | dialFail =>
    refine ⟨?_, ?_, ?_⟩ <;> simp [establishFTPConnection, establishAux, hc]
  | authFail =>
    refine ⟨?_, ?_, ?_⟩ <;> simp [establishFTPConnection, establishAux, hc]

theorem establish_maxOne_amended_witness :
    (establishFTPConnection (fun _ => AttemptOutcome.success) 1).sleeps = 0 ∧
    (establishFTPConnection (fun _ => AttemptOutcome.authFail) 1).sleeps = 1 :=
  ⟨((establish_maxOne_amended (fun _ => AttemptOutcome.success)).2.1 rfl).1,
   ((establish_maxOne_amended (fun _ => AttemptOutcome.authFail)).2.2
      (fun h => nomatch h)).1⟩

theorem nameLe_total (f g : FsFile) : nameLe f g = true ∨ nameLe g f = true := by
  unfold nameLe
  generalize f.name.data = a
  generalize g.name.data = b
  induction a generalizing b with
  | nil => left; rfl
  | cons x xs ih =>
    cases b with
    | nil => right; rfl
    | cons y ys =>
      rcases Nat.lt_trichotomy x.toNat y.toNat with h | h | h
      · left; simp [charListLe, h]
      · have h1 : ¬ x.toNat < y.toNat := by omega
        have h2 : ¬ y.toNat < x.toNat := by omega
        rcases ih ys with hc | hc
        · left; simp [charListLe, h1, h2, hc]
        · right; simp [charListLe, h1, h2, hc]
      · right; simp [charListLe, h]

theorem charListLe_trans : ∀ a b c : List Char,
    charListLe a b = true → charListLe b c = true → charListLe a c = true := by
  intro a
  induction a with
  | nil => intro b c _ _; rfl
  | cons x xs ih =>
    intro b c hab hbc
    cases b with
    | nil => simp [charListLe] at hab
    | cons y ys =>
      cases c with
      | nil => simp [charListLe] at hbc
      | cons z zs =>
        by_cases h1 : x.toNat < y.toNat <;> by_cases h2 : y.toNat < z.toNat
        · simp [charListLe, show x.toNat < z.toNat by omega]
        · by_cases h3 : z.toNat < y.toNat
          · simp [charListLe, h2, h3] at hbc
          · simp [charListLe, show x.toNat < z.toNat by omega]
        · by_cases h4 : y.toNat < x.toNat
          · simp [charListLe, h1, h4] at hab
          · simp [charListLe, show x.toNat < z.toNat by omega]
        · by_cases h4 : y.toNat < x.toNat
          · simp [charListLe, h1, h4] at hab
          · by_cases h3 : z.toNat < y.toNat
            · simp [charListLe, h2, h3] at hbc
            · have hxz1 : ¬ x.toNat < z.toNat := by omega
              have hxz2 : ¬ z.toNat < x.toNat := by omega
              simp [charListLe, h1, h4] at hab
              simp [charListLe, h2, h3] at hbc
              simp [charListLe, hxz1, hxz2]
              exact ih ys zs hab hbc

theorem nameLe_trans {f g h : FsFile} (h1 : nameLe f g = true) (h2 : nameLe g h = true) :
    nameLe f h = true :=
  charListLe_trans _ _ _ h1 h2

theorem mem_insertByName {x f : FsFile} : ∀ {l : List FsFile},
    x ∈ insertByName f l ↔ x = f ∨ x ∈ l := by
  intro l
  induction l with
  | nil => simp [insertByName]
  | cons g gs ih =>
    by_cases h : nameLe f g
    · simp [insertByName, h]
    · simp only [insertByName, h, if_neg, Bool.false_eq_true, ite_false, List.mem_cons, ih]
      tauto

theorem mem_sortByName {x : FsFile} : ∀ {l : List FsFile}, x ∈ sortByName l ↔ x ∈ l := by
  intro l
  induction l with
  | nil => simp [sortByName]
  | cons f fs ih => simp [sortByName, mem_insertByName, ih]

theorem length_insertByName (f : FsFile) : ∀ l : List FsFile,
    (insertByName f l).length = l.length + 1 := by
  intro l
  induction l with
  | nil => rfl
  | cons g gs ih => by_cases h : nameLe f g <;> simp [insertByName, h, ih]

theorem length_sortByName : ∀ l : List FsFile, (sortByName l).length = l.length := by
  intro l
  induction l with
  | nil => rfl
  | cons f fs ih => simp [sortByName, length_insertByName, ih]

theorem pairwise_insertByName (f : FsFile) {l : List FsFile}
    (hl : l.Pairwise (fun a b => nameLe a b = true)) :
    (insertByName f l).Pairwise (fun a b => nameLe a b = true) := by
  induction l with
  | nil => simp [insertByName]
  | cons g gs ih =>
    rw [List.pairwise_cons] at hl
    obtain ⟨hg, hgs⟩ := hl
    by_cases h : nameLe f g
    · rw [show insertByName f (g :: gs) = f :: g :: gs by simp [insertByName, h]]
      rw [List.pairwise_cons]
      refine ⟨?_, ?_⟩
      · intro x hx
        rcases List.mem_cons.mp hx with rfl | hx2
        · exact h
        · exact nameLe_trans h (hg x hx2)
      · rw [List.pairwise_cons]; exact ⟨hg, hgs⟩
    · rw [show insertByName f (g :: gs) = g :: insertByName f gs by simp [insertByName, h]]
      rw [List.pairwise_cons]
      refine ⟨?_, ?_⟩
      · intro x hx
        rcases mem_insertByName.mp hx with rfl | hx2
        · rcases nameLe_total x g with hc | hc
          · exact absurd hc h
          · exact hc
        · exact hg x hx2
      · exact ih hgs

theorem pairwise_sortByName : ∀ l : List FsFile,
    (sortByName l).Pairwise (fun a b => nameLe a b = true) := by
  intro l
  induction l with
  | nil => simp [sortByName]
  | cons f fs ih => exact pairwise_insertByName f ih

theorem filterMap_rowOf_eq_map {mt : FsFile → String} : ∀ {l : List FsFile},
    (∀ f ∈ l, f.statResult = some (mt f)) →
    l.filterMap rowOf = l.map (fun f => [f.name, mt f]) := by
  intro l
  induction l with
  | nil => intro _; rfl
  | cons f fs ih =>
    intro h
    have hf := h f (List.mem_cons_self f fs)
    have hrow : rowOf f = some [f.name, mt f] := by simp [rowOf, hf]
    rw [List.filterMap_cons, hrow, List.map_cons]
    rw [ih (fun g hg => h g (List.mem_cons_of_mem f hg))]

theorem length_filterMap_lt_of_none {f : FsFile} : ∀ {l : List FsFile}, f ∈ l →
    f.statResult = none → (l.filterMap rowOf).length < l.length := by
  intro l
  induction l with
  | nil => intro h _; cases h
  | cons g gs ih =>
    intro hmem hnone
    rcases List.mem_cons.mp hmem with rfl | hmem2
    · have hrow : rowOf f = none := by simp [rowOf, hnone]
      rw [List.filterMap_cons, hrow]
      have hle := List.length_filterMap_le rowOf gs
      simpa using Nat.lt_succ_of_le hle
    · rw [List.filterMap_cons]
      cases hr : rowOf g
      · have := ih hmem2 hnone
        simpa using Nat.lt_succ_of_lt this
      · have := ih hmem2 hnone
        simpa using Nat.succ_lt_succ this

/-- Claim C6: when zero capture files match the glob pattern, generateMetadata
performs no write (the metadata file is neither created nor modified), logs a
warning, and a second call in the resulting state is the same no-op. -/
theorem generateMetadata_noSnapshots (s : FsState) (h : glob s.captureDir = []) :
    generateMetadata s =
      { finalState := s, written := none,
        logs := [MetaLog.started, MetaLog.noSnapshotsWarning] } ∧
    generateMetadata (generateMetadata s).finalState = generateMetadata s := by
  have h1 : generateMetadata s =
      { finalState := s, written := none,
        logs := [MetaLog.started, MetaLog.noSnapshotsWarning] } := by
    simp [generateMetadata, h]
  refine ⟨h1, ?_⟩
  rw [h1]
  exact h1

theorem generateMetadata_noSnapshots_witness :
    generateMetadata emptyDirState =
      { finalState := emptyDirState, written := none,
        logs := [MetaLog.started, MetaLog.noSnapshotsWarning] } ∧
    generateMetadata (generateMetadata emptyDirState).finalState =
      generateMetadata emptyDirState :=
  generateMetadata_noSnapshots emptyDirState (by decide)

/-- Claim C4: given a capture directory whose M files (M at least 1) all match
the glob pattern, have pairwise distinct modification-time strings and are
all readable, generateMetadata writes exactly M + 1 rows: the fixed header
row first, then one row per file in the filename-sorted glob enumeration
order, each row pairing the file name with that file modification-time
string. -/
theorem generateMetadata_allOk (s : FsState) (mt : FsFile → String) (M : Nat)
    (hall : ∀ f ∈ s.captureDir, snapshotPattern f.name = true)
    (hM : s.captureDir.length = M) (hM1 : 1 ≤ M)
    (hstat : ∀ f ∈ s.captureDir, f.statResult = some (mt f))
    (hdist : s.captureDir.Pairwise (fun f g => mt f ≠ mt g)) :
    (generateMetadata s).written =
      some (metadataHeader :: (glob s.captureDir).map (fun f => [f.name, mt f])) ∧
    (metadataRecords (glob s.captureDir)).length = M + 1 ∧
    (glob s.captureDir).Pairwise (fun f g => nameLe f g = true) := by
  have hfil : s.captureDir.filter (fun f => snapshotPattern f.name) = s.captureDir :=
    List.filter_eq_self.mpr hall
  have hglob : glob s.captureDir = sortByName s.captureDir := by rw [glob, hfil]
  have hlen : (glob s.captureDir).length = M := by
    rw [hglob, length_sortByName, hM]
  have hmem : ∀ f ∈ glob s.captureDir, f.statResult = some (mt f) := by
    intro f hf
    rw [hglob] at hf
    exact hstat f (mem_sortByName.mp hf)
  have hrows : (glob s.captureDir).filterMap rowOf =
      (glob s.captureDir).map (fun f => [f.name, mt f]) := filterMap_rowOf_eq_map hmem
  have hne : (glob s.captureDir).isEmpty = false := by
    cases hg : glob s.captureDir with
    | nil => rw [hg] at hlen; simp at hlen; omega
    | cons a l => simp
  refine ⟨?_, ?_, ?_⟩
  · simp [generateMetadata, hne, metadataRecords, hrows]
  · simp [metadataRecords, hrows, hlen]
  · rw [hglob]; exact pairwise_sortByName _

theorem generateMetadata_allOk_witness :
    (generateMetadata allOkState).written =
      some (metadataHeader ::
        (glob allOkState.captureDir).map (fun f => [f.name, witnessMt f])) ∧
    (metadataRecords (glob allOkState.captureDir)).length = 2 + 1 ∧
    (glob allOkState.captureDir).Pairwise (fun f g => nameLe f g = true) :=
  generateMetadata_allOk allOkState witnessMt 2 (by decide) (by decide) (by decide)
    (by decide) (by decide)

/-- Claim C9: during generateMetadata, a globbed file whose os.Stat fails is
silently omitted from the records after a logged message, while rows for all
files whose stat succeeds are still written, so the resulting manifest has
fewer than M + 1 rows even when M files match the pattern. -/
theorem generateMetadata_statFailure (s : FsState) (f : FsFile)
    (hf : f ∈ glob s.captureDir) (hfail : f.statResult = none) :
    (generateMetadata s).written = some (metadataRecords (glob s.captureDir)) ∧
    MetaLog.statFailed f.name ∈ (generateMetadata s).logs ∧
    (∀ g ∈ glob s.captureDir, ∀ t, g.statResult = some t →
      [g.name, t] ∈ (glob s.captureDir).filterMap rowOf) ∧
    (metadataRecords (glob s.captureDir)).length < (glob s.captureDir).length + 1 := by
  have hne : (glob s.captureDir).isEmpty = false := by
    cases hg : glob s.captureDir with
    | nil => rw [hg] at hf; cases hf
    | cons a l => simp
  refine ⟨?_, ?_, ?_, ?_⟩
  · simp [generateMetadata, hne]
  · have hmem : MetaLog.statFailed f.name ∈
        (glob s.captureDir).filterMap
          (fun g => if g.statResult.isNone then some (MetaLog.statFailed g.name) else none) :=
      List.mem_filterMap.mpr ⟨f, hf, by simp [hfail]⟩
    simp only [generateMetadata, hne]
    simp [List.mem_append]
    tauto
  · intro g hg t ht
    exact List.mem_filterMap.mpr ⟨g, hg, by simp [rowOf, ht]⟩
  · have := length_filterMap_lt_of_none hf hfail
    simpa [metadataRecords] using Nat.succ_lt_succ this

theorem generateMetadata_statFailure_witness :
    (generateMetadata statFailState).written =
      some (metadataRecords (glob statFailState.captureDir)) ∧
    MetaLog.statFailed "snapshot001.jpg" ∈ (generateMetadata statFailState).logs ∧
    (metadataRecords (glob statFailState.captureDir)).length <
      (glob statFailState.captureDir).length + 1 :=
  ⟨(generateMetadata_statFailure statFailState (FsFile.mk "snapshot001.jpg" none)
      (by decide) rfl).1,
   (generateMetadata_statFailure statFailState (FsFile.mk "snapshot001.jpg" none)
      (by decide) rfl).2.1,
   (generateMetadata_statFailure statFailState (FsFile.mk "snapshot001.jpg" none)
      (by decide) rfl).2.2.2⟩

theorem uploadLoop_attempted (ops : String → FileOps) : ∀ fs : List FsFile,
    (uploadLoop ops fs).filterMap attemptedName = fs.map FsFile.name := by
  intro fs
  induction fs with
  | nil => rfl
  | cons f t ih =>
    cases hu : (uploadFile (ops f.name)).1 with
    | none => simp [uploadLoop, hu, attemptedName, ih]
    | some e => simp [uploadLoop, hu, attemptedName, ih]

theorem getLast?_cons_of_ne {α : Type} (a : α) (l : List α) (h : l ≠ []) :
    (a :: l).getLast? = l.getLast? := by
  cases l with
  | nil => exact absurd rfl h
  | cons b t => exact List.getLast?_cons_cons ..

theorem uploadLoop_getLast (ops : String → FileOps) : ∀ fs : List FsFile,
    (uploadLoop ops fs).getLast? = some UpLog.completed := by
  intro fs
  induction fs with
  | nil => rfl
  | cons f t ih =>
    have hne : uploadLoop ops t ≠ [] := by
      cases t <;> simp [uploadLoop]
    cases hu : (uploadFile (ops f.name)).1 with
    | none =>
      simp only [uploadLoop, hu]
      rw [List.getLast?_cons_cons, getLast?_cons_of_ne _ _ hne]
      exact ih
    | some e =>
      simp only [uploadLoop, hu]
      rw [List.getLast?_cons_cons, getLast?_cons_of_ne _ _ hne]
      exact ih

/-- Claim C5: for every list of globbed capture files, even when the upload
of some file J fails, uploadSnapshots attempts and logs an outcome for every
file, in glob order — one failure never shortens or aborts the batch — and
the completion line comes only after every file has been attempted (it is
the final log entry). -/
theorem uploadSnapshots_allAttempted (dir : List FsFile) (ops : String → FileOps)
    (j : Nat) (e : String) (hj : j < (glob dir).length)
    (hfail : (uploadFile (ops (((glob dir).get ⟨j, hj⟩).name))).1 = some e) :
    (uploadSnapshots dir ops).filterMap attemptedName = (glob dir).map FsFile.name ∧
    (uploadSnapshots dir ops).getLast? = some UpLog.completed := by
  refine ⟨?_, ?_⟩
  · simp [uploadSnapshots, attemptedName, uploadLoop_attempted]
  · have hne : uploadLoop ops (glob dir) ≠ [] := by
      cases hg : glob dir <;> simp [uploadLoop]
    rw [uploadSnapshots, getLast?_cons_of_ne _ _ hne]
    exact uploadLoop_getLast ops (glob dir)

theorem uploadSnapshots_allAttempted_witness :
    (uploadSnapshots statFailState.captureDir witnessOps).filterMap attemptedName =
      (glob statFailState.captureDir).map FsFile.name ∧
    (uploadSnapshots statFailState.captureDir witnessOps).getLast? =
      some UpLog.completed :=
  uploadSnapshots_allAttempted statFailState.captureDir witnessOps 0 "open failed"
    (by decide) (by decide)

/-- Claim C10: when opening the local file and the remote Stor both succeed
but the deferred Close fails, uploadFile returns the close error to its
caller even though the transfer completed. -/
theorem uploadFile_closeError (ops : FileOps) (ce : String)
    (hopen : ops.openErr = none) (hstor : ops.storErr = none)
    (hclose : ops.closeErr = some ce) :
    (uploadFile ops).1 = some ce := by
  simp [uploadFile, hopen, hstor, hclose]

theorem uploadFile_closeError_witness :
    (uploadFile closeFailOps).1 = some "close failed" :=
  uploadFile_closeError closeFailOps "close failed" rfl rfl rfl

theorem coordInv_step {s t : CoordState} (hinv : coordInv s) (hstep : CoordStep s t) :
    coordInv t := by
  obtain ⟨i1, i2, i3, i4⟩ := hinv
  cases hstep with
  | runSynthesize h =>
    refine ⟨?_, i2, i3, i4⟩
    · intro hv
      have h2 := i1 hv
      rw [h] at h2
      exact nomatch h2
  | sendVideoDone h =>
    exact ⟨fun _ => rfl, fun _ => rfl, i3, i4⟩
  | recvVideoDone h1 h2 =>
    refine ⟨i1, fun _ => h2, ?_, i4⟩
    · intro hsn
      have h3 := i3 hsn
      rw [h1] at h3
      exact nomatch h3
  | runExtract h =>
    refine ⟨i1, ?_, ?_, i4⟩
    · intro _
      exact i2 (by rw [h]; exact fun hx => nomatch hx)
    · intro hsn
      have h3 := i3 hsn
      rw [h] at h3
      exact nomatch h3
  | sendSnapsDone h =>
    refine ⟨i1, ?_, fun _ => rfl, fun _ => rfl⟩
    · intro _
      exact i2 (by rw [h]; exact fun hx => nomatch hx)
  | recvSnapsDone h1 h2 =>
    exact ⟨i1, i2, i3, fun _ => h2⟩
  | runManifest h =>
    refine ⟨i1, i2, i3, ?_⟩
    · intro _
      exact i4 (by rw [h]; exact fun hx => nomatch hx)

theorem coordReachable_inv {s : CoordState} (h : CoordReachable s) : coordInv s := by
  induction h with
  | init => unfold coordInv; decide
  | step hr hstep ih => exact coordInv_step ih hstep

/-- Claim C7: in every reachable coordinator state, if the Extract stage has
started (its goroutine is past the blocking receive on testVideoDone) then
Synthesize has completed and its one-shot completion signal was sent, and if
the BuildManifest stage has started (past the blocking receive on
snapshotsDone) then Extract has completed and its one-shot completion signal
was sent: the signals order Synthesize before Extract before BuildManifest
in every interleaving. -/
theorem coordinator_stage_ordering {s : CoordState} (h : CoordReachable s) :
    (s.extract ≠ ExtractPC.blocked → s.synth = SynthPC.signalSent) ∧
    (s.manifest ≠ ManifestPC.blocked → s.extract = ExtractPC.signalSent) := by
  obtain ⟨i1, i2, i3, i4⟩ := coordReachable_inv h
  exact ⟨fun hx => i1 (i2 hx), fun hx => i3 (i4 hx)⟩

theorem coordinator_stage_ordering_witness :
    coordWitnessState.synth = SynthPC.signalSent :=
  (coordinator_stage_ordering
    (CoordReachable.step
      (CoordReachable.step
        (CoordReachable.step CoordReachable.init
          (CoordStep.runSynthesize initCoord rfl))
        (CoordStep.sendVideoDone _ rfl))
      (CoordStep.recvVideoDone _ rfl rfl))).1 (by decide)

theorem twoStepInduction {P : List Char → Prop} (h0 : P []) (h1 : ∀ c, P [c])
    (h2 : ∀ c d rest, P (d :: rest) → P (c :: d :: rest)) : ∀ l, P l
  | [] => h0
  | [c] => h1 c
  | c :: d :: rest => h2 c d rest (twoStepInduction h0 h1 h2 (d :: rest))

theorem hasCRLF_cons_false (x : Char) (l : List Char) (hl : hasCRLF l = false)
    (hx : x = '\r' → l.head? ≠ some '\n') : hasCRLF (x :: l) = false := by
  cases l with
  | nil => rfl
  | cons y t =>
    simp only [hasCRLF]
    rw [hl, Bool.or_false]
    by_cases hxr : x = '\r'
    · have hy : ¬ y = '\n' := by
        intro hye
        exact hx hxr (by simp [hye])
      simp [hxr, hy]
    · simp [hxr]

theorem hasCRLF_cons_elim {x : Char} {l : List Char} (h : hasCRLF (x :: l) = false) :
    hasCRLF l = false ∧ (x = '\r' → l.head? ≠ some '\n') := by
  cases l with
  | nil => exact ⟨rfl, fun _ hcon => nomatch hcon⟩
  | cons y t =>
    simp only [hasCRLF, Bool.or_eq_false_iff] at h
    obtain ⟨h1, h2⟩ := h
    refine ⟨h2, ?_⟩
    intro hx
    subst hx
    simp only [beq_self_eq_true, Bool.true_and, beq_eq_false_iff_ne, ne_eq] at h1
    simp [h1]

theorem normalizeCRLF_eq_self : ∀ l : List Char, hasCRLF l = false →
    normalizeCRLF l = l := by
  intro l
  induction l using twoStepInduction with
  | h0 => intro _; rfl
  | h1 c => intro _; rfl
  | h2 c d rest ih =>
    intro h
    obtain ⟨ht, hx⟩ := hasCRLF_cons_elim h
    have hne : ¬(c = '\r' ∧ d = '\n') := by
      rintro ⟨rfl, rfl⟩
      exact hx rfl (by simp)
    simp only [normalizeCRLF]
    rw [if_neg hne, ih ht]

theorem head?_escapeField (f : List Char) :
    (escapeField f).head? = some '\n' → f.head? = some '\n' := by
  cases f with
  | nil => intro h; exact nomatch h
  | cons c t =>
    by_cases hc : c = '"'
    · subst hc
      intro h
      rw [show escapeField ('"' :: t) = '"' :: '"' :: escapeField t by
        simp [escapeField]] at h
      exact nomatch h
    · intro h
      rw [show escapeField (c :: t) = c :: escapeField t by simp [escapeField, hc]] at h
      simpa using h

theorem hasCRLF_escapeField : ∀ f : List Char, hasCRLF f = false →
    hasCRLF (escapeField f) = false := by
  intro f
  induction f with
  | nil => intro _; rfl
  | cons c t ih =>
    intro h
    obtain ⟨ht, hx⟩ := hasCRLF_cons_elim h
    by_cases hc : c = '"'
    · subst hc
      rw [show escapeField ('"' :: t) = '"' :: '"' :: escapeField t by
        simp [escapeField]]
      apply hasCRLF_cons_false
      · apply hasCRLF_cons_false _ _ (ih ht)
        intro hcon
        exact absurd hcon (by decide)
      · intro hcon
        exact absurd hcon (by decide)
    · rw [show escapeField (c :: t) = c :: escapeField t by simp [escapeField, hc]]
      apply hasCRLF_cons_false _ _ (ih ht)
      intro hcr hhead
      exact hx hcr (head?_escapeField t hhead)

theorem hasCRLF_append : ∀ xs : List Char, hasCRLF xs = false →
    ∀ ys : List Char, hasCRLF ys = false →
    (xs.getLast? = some '\r' → ys.head? ≠ some '\n') →
    hasCRLF (xs ++ ys) = false := by
  intro xs
  induction xs using twoStepInduction with
  | h0 => intro _ ys hy _; simpa using hy
  | h1 c =>
    intro _ ys hy hmid
    apply hasCRLF_cons_false _ _ hy
    intro hcr
    exact hmid (by simp [hcr])
  | h2 c d rest ih =>
    intro h ys hy hmid
    obtain ⟨ht, hx⟩ := hasCRLF_cons_elim h
    have hmid2 : (d :: rest).getLast? = some '\r' → ys.head? ≠ some '\n' := by
      intro hg
      exact hmid (by rw [List.getLast?_cons_cons]; exact hg)
    have hrec := ih ht ys hy hmid2
    apply hasCRLF_cons_false _ _ hrec
    intro hcr hcon
    apply hx hcr
    simp only [List.cons_append, List.head?_cons, Option.some.injEq] at hcon
    simp [hcon]

theorem mem_of_getLastChars : ∀ (l : List Char) (a : Char), l.getLast? = some a → a ∈ l := by
  intro l
  induction l with
  | nil => intro a h; exact nomatch h
  | cons x t ih =>
    intro a h
    cases t with
    | nil =>
      simp only [List.getLast?_singleton, Option.some.injEq] at h
      simp [h]
    | cons y u =>
      rw [List.getLast?_cons_cons] at h
      exact List.mem_cons_of_mem x (ih a h)

theorem fieldNoSpecial (f : List Char) (h : fieldNeedsQuotes f = false) :
    ∀ c ∈ f, c ≠ ',' ∧ c ≠ '"' ∧ c ≠ '\r' ∧ c ≠ '\n' := by
  intro c hc
  have hany : f.any csvSpecial = false := by
    rcases f with _ | ⟨d, t⟩
    · rfl
    · simp only [fieldNeedsQuotes, Bool.or_eq_false_iff] at h
      exact h.1.2
  have hcs : csvSpecial c = false := by
    have h2 := List.any_eq_false.mp hany c hc
    simpa using h2
  simp only [csvSpecial, Bool.or_eq_false_iff, beq_eq_false_iff_ne, ne_eq] at hcs
  exact ⟨hcs.1.1.1, hcs.1.1.2, hcs.1.2, hcs.2⟩

theorem getLast?_writeField_ne_cr (f : List Char) :
    (writeField f).getLast? ≠ some '\r' := by
  by_cases hq : fieldNeedsQuotes f
  · rw [show writeField f = '"' :: (escapeField f ++ ['"']) by simp [writeField, hq]]
    rw [getLast?_cons_of_ne _ _ (by simp), List.getLast?_concat]
    decide
  · have hq2 : fieldNeedsQuotes f = false := by simpa using hq
    rw [show writeField f = f by simp [writeField, hq2]]
    intro hcon
    exact (fieldNoSpecial f hq2 '\r' (mem_of_getLastChars f '\r' hcon)).2.2.1 rfl

theorem getLast?_writeRecordPair (p : List Char × List Char) :
    (writeRecordPair p).getLast? = some '\n' := by
  have h : writeRecordPair p = (writeField p.1 ++ ',' :: writeField p.2) ++ ['\n'] := by
    simp [writeRecordPair]
  rw [h, List.getLast?_concat]

theorem hasCRLF_writeField (f : List Char) (h : hasCRLF f = false) :
    hasCRLF (writeField f) = false := by
  by_cases hq : fieldNeedsQuotes f
  · rw [show writeField f = '"' :: (escapeField f ++ ['"']) by simp [writeField, hq]]
    apply hasCRLF_cons_false
    · apply hasCRLF_append _ (hasCRLF_escapeField f h) ['"'] rfl
      intro _
      decide
    · intro hcon
      exact absurd hcon (by decide)
  · have hq2 : fieldNeedsQuotes f = false := by simpa using hq
    rw [show writeField f = f by simp [writeField, hq2]]
    exact h

theorem hasCRLF_writeRecordPair (p : List Char × List Char)
    (h1 : hasCRLF p.1 = false) (h2 : hasCRLF p.2 = false) :
    hasCRLF (writeRecordPair p) = false := by
  rw [writeRecordPair]
  apply hasCRLF_append _ (hasCRLF_writeField _ h1)
  · apply hasCRLF_cons_false
    · apply hasCRLF_append _ (hasCRLF_writeField _ h2) ['\n'] rfl
      intro hg
      exact absurd hg (getLast?_writeField_ne_cr _)
    · intro hcon
      exact absurd hcon (by decide)
  · intro hg
    exact absurd hg (getLast?_writeField_ne_cr _)

theorem hasCRLF_writeAllPairs : ∀ prs : List (List Char × List Char),
    (∀ p ∈ prs, hasCRLF p.1 = false ∧ hasCRLF p.2 = false) →
    hasCRLF (writeAllPairs prs) = false := by
  intro prs
  induction prs with
  | nil => intro _; rfl
  | cons p t ih =>
    intro h
    obtain ⟨hp1, hp2⟩ := h p (List.mem_cons_self p t)
    rw [writeAllPairs]
    apply hasCRLF_append _ (hasCRLF_writeRecordPair p hp1 hp2) _
      (ih (fun q hq => h q (List.mem_cons_of_mem p hq)))
    intro hg
    rw [getLast?_writeRecordPair] at hg
    exact nomatch hg

theorem parseBareRun (rest : List Char) (ra : List (List Char))
    (recs : List (List (List Char))) :
    ∀ f fa : List Char, (∀ c ∈ f, c ≠ '\n' ∧ c ≠ ',' ∧ c ≠ '"') →
      parseLoop (f ++ rest) PMode.bareMode fa ra recs =
        parseLoop rest PMode.bareMode (fa ++ f) ra recs := by
  intro f
  induction f with
  | nil => intro fa _; simp
  | cons c t ih =>
    intro fa h
    obtain ⟨h1, h2, h3⟩ := h c (List.mem_cons_self c t)
    have ihh := ih (fa ++ [c]) (fun x hx => h x (List.mem_cons_of_mem c hx))
    simp only [List.cons_append]
    simp [parseLoop, h1, h2, h3, ihh]

theorem parseQuotedRun (rest : List Char) (ra : List (List Char))
    (recs : List (List (List Char))) :
    ∀ f fa : List Char,
      parseLoop (escapeField f ++ '"' :: rest) PMode.quotedMode fa ra recs =
        parseLoop rest PMode.afterQuote (fa ++ f) ra recs := by
  intro f
  induction f with
  | nil =>
    intro fa
    simp [escapeField, parseLoop]
  | cons c t ih =>
    intro fa
    by_cases hc : c = '"'
    · subst hc
      have ihh := ih (fa ++ ['"'])
      rw [show escapeField ('"' :: t) = '"' :: '"' :: escapeField t by
        simp [escapeField]]
      simp only [List.cons_append]
      simp [parseLoop, ihh]
    · have ihh := ih (fa ++ [c])
      rw [show escapeField (c :: t) = c :: escapeField t by simp [escapeField, hc]]
      simp only [List.cons_append]
      simp [parseLoop, hc, ihh]

theorem parseWriteField_lineStart (a rest : List Char)
    (recs : List (List (List Char))) :
    parseLoop (writeField a ++ ',' :: rest) PMode.lineStart [] [] recs =
      parseLoop rest PMode.fieldStart [] [a] recs := by
  by_cases hq : fieldNeedsQuotes a
  · rw [show writeField a = '"' :: (escapeField a ++ ['"']) by simp [writeField, hq]]
    rw [show ('"' :: (escapeField a ++ ['"'])) ++ ',' :: rest =
        '"' :: (escapeField a ++ '"' :: ',' :: rest) by simp]
    have hrun := parseQuotedRun (',' :: rest) [] recs a []
    simp [parseLoop, hrun]
  · have hq2 : fieldNeedsQuotes a = false := by simpa using hq
    rw [show writeField a = a by simp [writeField, hq2]]
    have hns := fieldNoSpecial a hq2
    rcases a with _ | ⟨c, t⟩
    · simp [parseLoop]
    · obtain ⟨hcComma, hcQuote, _, hcLF⟩ := hns c (List.mem_cons_self c t)
      have hrun := parseBareRun (',' :: rest) [] recs t [c]
        (fun x hx => by
          obtain ⟨x1, x2, _, x4⟩ := hns x (List.mem_cons_of_mem c hx)
          exact ⟨x4, x1, x2⟩)
      simp only [List.cons_append]
      simp [parseLoop, hcComma, hcQuote, hcLF, hrun]

theorem parseWriteField_fieldStart (b rest : List Char) (ra : List (List Char))
    (recs : List (List (List Char))) :
    parseLoop (writeField b ++ '\n' :: rest) PMode.fieldStart [] ra recs =
      parseLoop rest PMode.lineStart [] [] (recs ++ [ra ++ [b]]) := by
  by_cases hq : fieldNeedsQuotes b
  · rw [show writeField b = '"' :: (escapeField b ++ ['"']) by simp [writeField, hq]]
    rw [show ('"' :: (escapeField b ++ ['"'])) ++ '\n' :: rest =
        '"' :: (escapeField b ++ '"' :: '\n' :: rest) by simp]
    have hrun := parseQuotedRun ('\n' :: rest) ra recs b []
    simp [parseLoop, hrun]
  · have hq2 : fieldNeedsQuotes b = false := by simpa using hq
    rw [show writeField b = b by simp [writeField, hq2]]
    have hns := fieldNoSpecial b hq2
    rcases b with _ | ⟨c, t⟩
    · simp [parseLoop]
    · obtain ⟨hcComma, hcQuote, _, hcLF⟩ := hns c (List.mem_cons_self c t)
      have hrun := parseBareRun ('\n' :: rest) ra recs t [c]
        (fun x hx => by
          obtain ⟨x1, x2, _, x4⟩ := hns x (List.mem_cons_of_mem c hx)
          exact ⟨x4, x1, x2⟩)
      simp only [List.cons_append]
      simp [parseLoop, hcComma, hcQuote, hcLF, hrun]

theorem parseWriteRecord (a b rest : List Char) (recs : List (List (List Char))) :
    parseLoop (writeRecordPair (a, b) ++ rest) PMode.lineStart [] [] recs =
      parseLoop rest PMode.lineStart [] [] (recs ++ [[a, b]]) := by
  have hshape : writeRecordPair (a, b) ++ rest =
      writeField a ++ ',' :: (writeField b ++ '\n' :: rest) := by
    simp [writeRecordPair]
  rw [hshape, parseWriteField_lineStart, parseWriteField_fieldStart]
  simp

theorem parseWriteAll : ∀ (prs : List (List Char × List Char))
    (recs : List (List (List Char))),
    parseLoop (writeAllPairs prs) PMode.lineStart [] [] recs =
      Except.ok (recs ++ prs.map (fun p => [p.1, p.2])) := by
  intro prs
  induction prs with
  | nil => intro recs; simp [writeAllPairs, parseLoop]
  | cons p t ih =>
    intro recs
    rcases p with ⟨a, b⟩
    rw [writeAllPairs, parseWriteRecord, ih]
    simp

/-- Claim C8 amended: a manifest written by the manifest builder from
(filename, timestamp) pairs, re-parsed with the same CSV dialect, yields
exactly the header and the same pairs in the same order, provided no field
contains a CR immediately followed by an LF; a CR LF inside a field is
normalized to a lone LF by the reader, which the counterexample exhibits. -/
theorem writeManifest_roundTrip (prs : List (List Char × List Char))
    (h : ∀ p ∈ prs, hasCRLF p.1 = false ∧ hasCRLF p.2 = false) :
    readAllCSV (writeManifestCSV prs) =
      Except.ok ((manifestHeaderPair :: prs).map (fun p => [p.1, p.2])) := by
  have hall : ∀ p ∈ manifestHeaderPair :: prs,
      hasCRLF p.1 = false ∧ hasCRLF p.2 = false := by
    intro p hp
    rcases List.mem_cons.mp hp with rfl | hp2
    · exact ⟨by decide, by decide⟩
    · exact h p hp2
  have hnorm : normalizeCRLF (writeManifestCSV prs) = writeManifestCSV prs :=
    normalizeCRLF_eq_self _ (hasCRLF_writeAllPairs _ hall)
  have hparse : parseCSVChars (writeManifestCSV prs) =
      Except.ok ([manifestHeaderPair.1, manifestHeaderPair.2] ::
        prs.map (fun p => [p.1, p.2])) := by
    rw [parseCSVChars, writeManifestCSV, parseWriteAll]
    simp
  have hcheck : (([manifestHeaderPair.1, manifestHeaderPair.2] ::
      prs.map (fun p => [p.1, p.2])).all
        (fun r => r.length == ([manifestHeaderPair.1, manifestHeaderPair.2] :
          List (List Char)).length)) = true := by
    rw [List.all_eq_true]
    intro r hr
    rcases List.mem_cons.mp hr with rfl | hr2
    · simp
    · rcases List.mem_map.mp hr2 with ⟨p, _, rfl⟩
      simp
  rw [readAllCSV, hnorm, hparse]
  simp only []
  rw [if_pos hcheck]
  simp

theorem writeManifest_roundTrip_witness :
    readAllCSV (writeManifestCSV witnessPairs) =
      Except.ok ((manifestHeaderPair :: witnessPairs).map (fun p => [p.1, p.2])) :=
  writeManifest_roundTrip witnessPairs (by decide)

/-- Claim C8 counterexample: for the pair list whose filename field contains
a CR LF, the written manifest re-parses to a record sequence in which the CR
has been dropped, so the write-then-parse round trip is not the identity on
the record sequence. -/
theorem writeManifest_roundTrip_counterexample :
    readAllCSV (writeManifestCSV [crlfPair]) =
      Except.ok [["Filename".data, "Creation Time".data], [['a', '\n', 'b'], ['t']]] ∧
    ([["Filename".data, "Creation Time".data], [['a', '\n', 'b'], ['t']]] :
        List (List (List Char))) ≠
      (manifestHeaderPair :: [crlfPair]).map (fun p => [p.1, p.2]) :=
  ⟨by rfl, by decide⟩
